import Mathlib

/-!
Verification of the clerkk-recorder audio pipeline.

The development shallowly embeds the `useMicrophone` hook (analysis engine),
the `Waveform` renderer decision logic, and the `RecorderApp` shell state
machine.  Real-valued quantities are modelled with exact rationals, clock
times in milliseconds with naturals, and the browser-side resources (media
streams, audio contexts) with an explicit ledger of open handles so that
resource lifecycles are observable.
-/

namespace Clerkk

/-- Constant from `useMicrophone`: `SILENCE_THRESHOLD = 0.005`. -/
def SILENCE_THRESHOLD : ℚ := 5 / 1000

/-- Constant from `useMicrophone`: `SILENCE_DELAY = 800` ms. -/
def SILENCE_DELAY : ℕ := 800

/-- Constant from `useMicrophone`: `VOLUME_HISTORY_SIZE = 10` frames. -/
def VOLUME_HISTORY_SIZE : ℕ := 10

/-- Constant from `useMicrophone`: `MIN_SPEAKING_DURATION = 200` ms. -/
def MIN_SPEAKING_DURATION : ℕ := 200

/-- `analyzeAudio`: `average = dataArray.reduce((a,b) => a+b) / dataArray.length;
normalizedLevel = average / 255`.  The byte array is modelled as a list of
naturals (each intended to be ≤ 255). -/
def normalizedLevel (data : List ℕ) : ℚ :=
  ((data.sum : ℚ) / (data.length : ℚ)) / 255

/-- Arithmetic mean of a list of rationals, as in
`volumeHistoryRef.current.reduce((a,b) => a+b, 0) / volumeHistoryRef.current.length`. -/
def mean (l : List ℚ) : ℚ :=
  l.sum / (l.length : ℚ)

/-- `analyzeAudio`: `volumeHistoryRef.current.push(normalizedLevel); if
(volumeHistoryRef.current.length > VOLUME_HISTORY_SIZE)
volumeHistoryRef.current.shift();`. -/
def pushHistory (h : List ℚ) (v : ℚ) : List ℚ :=
  let pushed := h ++ [v]
  if VOLUME_HISTORY_SIZE < pushed.length then pushed.tail else pushed

/-- Error message set by the `catch` branch of `startListening`. -/
def micDeniedMsg : String :=
  "Microphone access denied. Please allow microphone permissions."

/-- State of the `useMicrophone` hook together with a model clock (`time`,
the timestamp of the last processed callback, standing for `Date.now()`)
and a browser-side ledger of live media streams and open audio contexts.
Handles are identified by allocation order (`nextId`).  `silenceTimeout`
holds the deadline (start time + `SILENCE_DELAY`) of the pending
silence-confirmation timer, when one is pending. -/
structure MicState where
  isListening : Bool
  isSpeaking : Bool
  hasPermission : Option Bool
  audioLevel : ℚ
  error : Option String
  mediaStream : Option ℕ
  audioContext : Option ℕ
  analyser : Option ℕ
  silenceTimeout : Option ℕ
  volumeHistory : List ℚ
  lastSpeakingTime : ℕ
  time : ℕ
  nextId : ℕ
  openStreams : List ℕ
  openContexts : List ℕ
deriving Repr, DecidableEq

/-- Initial hook state: all refs null, history empty, flags false. -/
def initState : MicState where
  isListening := false
  isSpeaking := false
  hasPermission := none
  audioLevel := 0
  error := none
  mediaStream := none
  audioContext := none
  analyser := none
  silenceTimeout := none
  volumeHistory := []
  lastSpeakingTime := 0
  time := 0
  nextId := 0
  openStreams := []
  openContexts := []

/-- One invocation of `analyzeAudio` at time `t` with frequency data `data`.
Mirrors the source: early return when the analyser ref is null; otherwise
set `audioLevel` to the raw normalized level, push it into the history,
compute the smoothed mean, and either (above threshold) clear the pending
silence timeout and mark speaking with an onset timestamp, or (at or below
threshold) start the silence-confirmation timer when speaking and no timer
is pending. -/
def analyzeAudio (s : MicState) (t : ℕ) (data : List ℕ) : MicState :=
  if s.analyser = none then s
  else
    let level := normalizedLevel data
    let hist := pushHistory s.volumeHistory level
    let smoothedLevel := mean hist
    if SILENCE_THRESHOLD < smoothedLevel then
      if s.isSpeaking then
        { s with audioLevel := level, volumeHistory := hist,
                 silenceTimeout := none, time := t }
      else
        { s with audioLevel := level, volumeHistory := hist,
                 silenceTimeout := none, isSpeaking := true,
                 lastSpeakingTime := t, time := t }
    else
      if s.isSpeaking = true ∧ s.silenceTimeout = none then
        { s with audioLevel := level, volumeHistory := hist,
                 silenceTimeout := some (t + SILENCE_DELAY), time := t }
      else
        { s with audioLevel := level, volumeHistory := hist, time := t }

/-- The silence-confirmation timer callback firing at time `t`:
`speakingDuration = Date.now() - lastSpeakingTimeRef.current; if
(speakingDuration >= MIN_SPEAKING_DURATION) setIsSpeaking(false);
silenceTimeoutRef.current = null;`. -/
def fireSilenceTimeout (s : MicState) (t : ℕ) : MicState :=
  { s with
    isSpeaking :=
      if MIN_SPEAKING_DURATION ≤ t - s.lastSpeakingTime then false
      else s.isSpeaking,
    silenceTimeout := none,
    time := t }

/-- Remove a handle from the browser-side ledger when present (track.stop /
context.close applied to the currently held handle). -/
def eraseOpt (l : List ℕ) : Option ℕ → List ℕ
  | some i => l.erase i
  | none => l

/-- `stopListening`: cancels the animation frame (modelled by event
validity), clears the pending timer, stops the current stream tracks,
closes the current audio context, nulls the analyser, clears the history
and resets the exposed flags and level. -/
def stopListening (s : MicState) : MicState :=
  { s with
    silenceTimeout := none,
    openStreams := eraseOpt s.openStreams s.mediaStream,
    mediaStream := none,
    openContexts := eraseOpt s.openContexts s.audioContext,
    audioContext := none,
    analyser := none,
    volumeHistory := [],
    isListening := false,
    isSpeaking := false,
    audioLevel := 0 }

/-- `startListening` with the microphone-permission outcome made explicit.
On grant: a fresh stream and audio context are allocated (added to the
ledger) and the refs overwritten, permission and listening are set.  On
denial: only the error message and the denied permission are recorded.
In both branches `setError(null)` runs first; on denial the catch handler
then stores the message. -/
def startListening (s : MicState) (granted : Bool) : MicState :=
  if granted then
    { s with
      error := none,
      mediaStream := some s.nextId,
      hasPermission := some true,
      isListening := true,
      audioContext := some s.nextId,
      analyser := some s.nextId,
      openStreams := s.nextId :: s.openStreams,
      openContexts := s.nextId :: s.openContexts,
      nextId := s.nextId + 1 }
  else
    { s with error := some micDeniedMsg, hasPermission := some false }

/-- Events of the single-threaded cooperative schedule: an `analyzeAudio`
tick (with its `Date.now()` timestamp and the analyser's byte data), the
silence-confirmation timer firing, and the two public operations. -/
inductive MicEvent where
  | tick (t : ℕ) (data : List ℕ)
  | fire (t : ℕ)
  | start (granted : Bool)
  | stop
deriving Repr, DecidableEq

/-- Step function dispatching an event to the code it runs. -/
def step (s : MicState) : MicEvent → MicState
  | .tick t data => analyzeAudio s t data
  | .fire t => fireSilenceTimeout s t
  | .start granted => startListening s granted
  | .stop => stopListening s

/-- Run a sequence of events from a state. -/
def run (s : MicState) (es : List MicEvent) : MicState :=
  es.foldl step s

/-- The pending deadline is at or before `t`. -/
def deadlineLe : Option ℕ → ℕ → Prop
  | some d, t => d ≤ t
  | none, _ => False

instance : (o : Option ℕ) → (t : ℕ) → Decidable (deadlineLe o t)
  | some _, _ => by unfold deadlineLe; infer_instance
  | none, _ => by unfold deadlineLe; infer_instance

/-- Scheduler constraints making an event possible in a state: the clock
never goes backwards; analysis ticks only run while the rAF loop is alive
(analyser ref non-null — `stopListening` both cancels the frame and nulls
the ref) and carry a non-empty byte array with byte-range entries; the
timer callback only runs while a timer is pending, at or after its
deadline. -/
def validEvent (s : MicState) : MicEvent → Prop
  | .tick t data =>
      s.time ≤ t ∧ s.analyser ≠ none ∧ data ≠ [] ∧ ∀ b ∈ data, b ≤ 255
  | .fire t => s.time ≤ t ∧ deadlineLe s.silenceTimeout t
  | .start _ => True
  | .stop => True

instance (s : MicState) (e : MicEvent) : Decidable (validEvent s e) := by
  cases e <;> unfold validEvent <;> infer_instance

/-- Well-formed event trace: every event is valid in the state it meets. -/
def WF : MicState → List MicEvent → Prop
  | _, [] => True
  | s, e :: es => validEvent s e ∧ WF (step s e) es

def decWF : (s : MicState) → (es : List MicEvent) → Decidable (WF s es)
  | _, [] => .isTrue trivial
  | s, e :: es =>
    have : Decidable (WF (step s e) es) := decWF (step s e) es
    instDecidableAnd

instance (s : MicState) (es : List MicEvent) : Decidable (WF s es) :=
  decWF s es

/-- The smoothed level a tick with data `data` computes at state `s`: the
mean of the history right after the push. -/
def smoothedAt (s : MicState) (data : List ℕ) : ℚ :=
  mean (pushHistory s.volumeHistory (normalizedLevel data))

/-- Every tick event in the list finds a smoothed level at or below the
silence threshold (no tick would cancel a pending confirmation timer). -/
def QuietTicks : MicState → List MicEvent → Prop
  | _, [] => True
  | s, e :: es =>
    (∀ t data, e = .tick t data → smoothedAt s data ≤ SILENCE_THRESHOLD) ∧
    QuietTicks (step s e) es

/-- Reachability invariant of the hook: the onset timestamp never lies in
the future, and a pending confirmation timer implies the speaking flag is
set, its deadline is at least `SILENCE_DELAY` past the onset timestamp, and
the analyser is live. -/
def Inv (s : MicState) : Prop :=
  s.lastSpeakingTime ≤ s.time ∧
  ∀ d, s.silenceTimeout = some d →
    s.isSpeaking = true ∧ s.lastSpeakingTime + SILENCE_DELAY ≤ d ∧ s.analyser ≠ none

/-- A `startListening` call finds no open session (the discipline the
recorder shell maintains: every start happens from idle or after
`stopListening`). -/
def startsClosed (s : MicState) : MicEvent → Prop
  | .start _ => s.mediaStream = none ∧ s.audioContext = none
  | _ => True

instance (s : MicState) (e : MicEvent) : Decidable (startsClosed s e) := by
  cases e <;> unfold startsClosed <;> infer_instance

/-- Every `startListening` event in the trace happens at a state with no
open session. -/
def Disciplined : MicState → List MicEvent → Prop
  | _, [] => True
  | s, e :: es => startsClosed s e ∧ Disciplined (step s e) es

def decDisciplined : (s : MicState) → (es : List MicEvent) →
    Decidable (Disciplined s es)
  | _, [] => .isTrue trivial
  | s, e :: es =>
    have : Decidable (Disciplined (step s e) es) := decDisciplined (step s e) es
    instDecidableAnd

instance (s : MicState) (es : List MicEvent) : Decidable (Disciplined s es) :=
  decDisciplined s es

/-! ### Waveform renderer (`Waveform.tsx`) -/

/-- Renderer constant: `silenceThreshold = 0.01`. -/
def silenceThreshold : ℚ := 1 / 100

/-- `drawWaveform`: the mean square of the centered samples,
`sum += ((dataArray[i]-128)/128)²` over the buffer, divided by its length.
The source then takes `rms = Math.sqrt(sum / bufferLength)`. -/
def meanSquare (data : List ℕ) : ℚ :=
  (data.map (fun b => (((b : ℚ) - 128) / 128) ^ 2)).sum / (data.length : ℚ)

/-- The renderer's local check `rms > silenceThreshold`.  Since
`rms = Math.sqrt(meanSquare)` and both sides are nonnegative, the source's
comparison is equivalent to comparing the squares, which keeps the
definition executable over ℚ: `rms > 0.01 ↔ meanSquare > 0.01²`. -/
def rmsAboveThreshold (data : List ℕ) : Bool :=
  decide (silenceThreshold ^ 2 < meanSquare data)

/-- First `drawWaveform` variant:
`const speaking = currentVolume > silenceThreshold || isSpeaking;` and the
branch between the active waveform and the flat line is `if (speaking)`. -/
def speakingDecision (data : List ℕ) (isSpeaking : Bool) : Bool :=
  rmsAboveThreshold data || isSpeaking

/-- Second `drawWaveform` variant (sine-overlay renderer): the active
branch is `if (speaking && currentVolume > silenceThreshold)` with the same
`speaking` disjunction. -/
def overlayBranch (data : List ℕ) (isSpeaking : Bool) : Bool :=
  speakingDecision data isSpeaking && rmsAboveThreshold data

/-- `updateCanvasSize`, parametrised by the measured container width and
the `width`/`height` props:
`calculatedWidth = containerWidth * 0.95; minWidth = max(calculatedWidth, 320);
finalWidth = min(minWidth, 800); aspectRatio = height / width;
responsiveHeight = finalWidth * aspectRatio;` and the stored height is
`Math.min(responsiveHeight, 200)`. -/
def updateCanvasSize (containerWidth width height : ℚ) : ℚ × ℚ :=
  let calculatedWidth := containerWidth * (95 / 100)
  let minWidth := max calculatedWidth 320
  let finalWidth := min minWidth 800
  let aspectRatio := height / width
  let responsiveHeight := finalWidth * aspectRatio
  (finalWidth, min responsiveHeight 200)

/-! ### Recorder shell (`RecorderApp.tsx`) -/

/-- `RecorderApp` component state on top of the hook state. -/
structure AppState where
  mic : MicState
  isRecording : Bool
  isPaused : Bool
  recordingTime : ℕ
deriving Repr, DecidableEq

/-- Initial shell state. -/
def initApp : AppState where
  mic := initState
  isRecording := false
  isPaused := false
  recordingTime := 0

/-- The condition under which the timer effect keeps a 1-second interval
installed: `isRecording && isListening && !isPaused`. -/
def timerGate (a : AppState) : Bool :=
  a.isRecording && a.mic.isListening && !a.isPaused

/-- One firing of the 1-second interval: `setRecordingTime(prev => prev + 1)`.
The effect installs the interval exactly while `timerGate` holds; a firing
outside the gate does not exist, modelled as a no-op. -/
def timerTick (a : AppState) : AppState :=
  if timerGate a then { a with recordingTime := a.recordingTime + 1 } else a

/-- `handleRecordingToggle`, with the permission outcome of the inner
`startListening()` call made explicit. -/
def handleRecordingToggle (a : AppState) (granted : Bool) : AppState :=
  if !a.isRecording && !a.isPaused then
    { a with mic := startListening a.mic granted,
             isRecording := true, isPaused := false, recordingTime := 0 }
  else if a.isRecording && !a.isPaused then
    { a with mic := stopListening a.mic, isPaused := true }
  else
    { a with mic := startListening a.mic granted, isPaused := false }

/-- `handleStopRecording`. -/
def handleStopRecording (a : AppState) : AppState :=
  { a with mic := stopListening a.mic,
           isRecording := false, isPaused := false, recordingTime := 0 }


/-! ## Basic unfolding lemmas -/

set_option maxRecDepth 100000

theorem run_nil (s : MicState) : run s [] = s := rfl

theorem run_cons (s : MicState) (e : MicEvent) (es : List MicEvent) :
    run s (e :: es) = run (step s e) es := rfl

theorem run_append (s : MicState) (es₁ es₂ : List MicEvent) :
    run s (es₁ ++ es₂) = run (run s es₁) es₂ :=
  List.foldl_append step s es₁ es₂

theorem step_tick (s : MicState) (t : ℕ) (data : List ℕ) :
    step s (.tick t data) = analyzeAudio s t data := rfl

theorem step_fire (s : MicState) (t : ℕ) :
    step s (.fire t) = fireSilenceTimeout s t := rfl

theorem step_start (s : MicState) (g : Bool) :
    step s (.start g) = startListening s g := rfl

theorem step_stop (s : MicState) : step s .stop = stopListening s := rfl

theorem WF_append (s : MicState) (es₁ es₂ : List MicEvent) :
    WF s (es₁ ++ es₂) ↔ WF s es₁ ∧ WF (run s es₁) es₂ := by
  induction es₁ generalizing s with
  | nil => simp [WF, run_nil]
  | cons e es ih =>
    simp only [List.cons_append, WF, run_cons, List.append_eq]
    rw [ih (step s e), and_assoc]

/-! ## Projections of one `analyzeAudio` tick -/

theorem tick_silenceTimeout (s : MicState) (t : ℕ) (data : List ℕ)
    (h : s.analyser ≠ none) :
    (step s (.tick t data)).silenceTimeout =
      if SILENCE_THRESHOLD < smoothedAt s data then none
      else if s.isSpeaking = true ∧ s.silenceTimeout = none then
        some (t + SILENCE_DELAY)
      else s.silenceTimeout := by
  rw [step_tick]
  unfold analyzeAudio smoothedAt
  rw [if_neg h]
  dsimp only
  split_ifs <;> rfl

theorem tick_isSpeaking (s : MicState) (t : ℕ) (data : List ℕ)
    (h : s.analyser ≠ none) :
    (step s (.tick t data)).isSpeaking =
      if SILENCE_THRESHOLD < smoothedAt s data then true else s.isSpeaking := by
  rw [step_tick]
  unfold analyzeAudio smoothedAt
  rw [if_neg h]
  dsimp only
  split_ifs <;> first | rfl | assumption

theorem tick_lastSpeakingTime (s : MicState) (t : ℕ) (data : List ℕ)
    (h : s.analyser ≠ none) :
    (step s (.tick t data)).lastSpeakingTime =
      if SILENCE_THRESHOLD < smoothedAt s data ∧ s.isSpeaking = false then t
      else s.lastSpeakingTime := by
  rw [step_tick]
  unfold analyzeAudio smoothedAt
  rw [if_neg h]
  dsimp only
  split_ifs <;> simp_all

theorem tick_time (s : MicState) (t : ℕ) (data : List ℕ)
    (h : s.analyser ≠ none) :
    (step s (.tick t data)).time = t := by
  rw [step_tick]
  unfold analyzeAudio
  rw [if_neg h]
  dsimp only
  split_ifs <;> rfl

theorem tick_audioLevel (s : MicState) (t : ℕ) (data : List ℕ)
    (h : s.analyser ≠ none) :
    (step s (.tick t data)).audioLevel = normalizedLevel data := by
  rw [step_tick]
  unfold analyzeAudio
  rw [if_neg h]
  dsimp only
  split_ifs <;> rfl

theorem tick_volumeHistory (s : MicState) (t : ℕ) (data : List ℕ)
    (h : s.analyser ≠ none) :
    (step s (.tick t data)).volumeHistory =
      pushHistory s.volumeHistory (normalizedLevel data) := by
  rw [step_tick]
  unfold analyzeAudio
  rw [if_neg h]
  dsimp only
  split_ifs <;> rfl

theorem tick_handles (s : MicState) (t : ℕ) (data : List ℕ) :
    (step s (.tick t data)).analyser = s.analyser ∧
    (step s (.tick t data)).mediaStream = s.mediaStream ∧
    (step s (.tick t data)).audioContext = s.audioContext ∧
    (step s (.tick t data)).openStreams = s.openStreams ∧
    (step s (.tick t data)).openContexts = s.openContexts := by
  rw [step_tick]
  unfold analyzeAudio
  dsimp only
  split_ifs <;> exact ⟨rfl, rfl, rfl, rfl, rfl⟩

/-! ## Projections of `startListening` -/

theorem start_silenceTimeout (s : MicState) (g : Bool) :
    (startListening s g).silenceTimeout = s.silenceTimeout := by
  cases g <;> rfl

theorem start_isSpeaking (s : MicState) (g : Bool) :
    (startListening s g).isSpeaking = s.isSpeaking := by
  cases g <;> rfl

theorem start_lastSpeakingTime (s : MicState) (g : Bool) :
    (startListening s g).lastSpeakingTime = s.lastSpeakingTime := by
  cases g <;> rfl

theorem start_time (s : MicState) (g : Bool) :
    (startListening s g).time = s.time := by
  cases g <;> rfl

theorem start_analyser (s : MicState) (g : Bool) :
    (startListening s g).analyser = if g then some s.nextId else s.analyser := by
  cases g <;> rfl

/-! ## The reachability invariant -/

theorem inv_init : Inv initState := by
  constructor
  · exact Nat.le_refl 0
  · intro d hd
    exact absurd hd (by simp [initState])

theorem inv_step (s : MicState) (e : MicEvent)
    (hv : validEvent s e) (hI : Inv s) : Inv (step s e) := by
  obtain ⟨hlst, hto⟩ := hI
  cases e with
  | tick t data =>
    obtain ⟨hts, ha, -, -⟩ := hv
    refine ⟨?_, ?_⟩
    · rw [tick_time s t data ha, tick_lastSpeakingTime s t data ha]
      split_ifs <;> omega
    · intro d hd
      rw [tick_silenceTimeout s t data ha] at hd
      rw [tick_isSpeaking s t data ha, tick_lastSpeakingTime s t data ha,
        (tick_handles s t data).1]
      by_cases h1 : SILENCE_THRESHOLD < smoothedAt s data
      · rw [if_pos h1] at hd
        exact absurd hd (by simp)
      · rw [if_neg h1] at hd
        rw [if_neg h1, if_neg (by simp [h1])]
        by_cases h2 : s.isSpeaking = true ∧ s.silenceTimeout = none
        · rw [if_pos h2] at hd
          have hd2 := Option.some.inj hd
          exact ⟨h2.1, by omega, ha⟩
        · rw [if_neg h2] at hd
          obtain ⟨hs, hdl, -⟩ := hto d hd
          exact ⟨hs, hdl, ha⟩
  | fire t =>
    obtain ⟨hts, -⟩ := hv
    rw [step_fire]
    unfold fireSilenceTimeout
    refine ⟨by dsimp only; omega, ?_⟩
    intro d hd
    exact absurd hd (by simp)
  | start g =>
    refine ⟨?_, ?_⟩
    · rw [step_start, start_time, start_lastSpeakingTime]
      exact hlst
    · intro d hd
      rw [step_start, start_silenceTimeout] at hd
      rw [step_start, start_isSpeaking, start_lastSpeakingTime, start_analyser]
      obtain ⟨hs, hdl, han⟩ := hto d hd
      refine ⟨hs, hdl, ?_⟩
      cases g with
      | true => simp
      | false => simpa using han
  | stop =>
    rw [step_stop]
    refine ⟨hlst, ?_⟩
    intro d hd
    exact absurd hd (by simp [stopListening])

theorem inv_run (es : List MicEvent) (s : MicState)
    (hI : Inv s) (hwf : WF s es) : Inv (run s es) := by
  induction es generalizing s with
  | nil => exact hI
  | cons e es ih =>
    rw [run_cons]
    exact ih (step s e) (inv_step s e hwf.1 hI) hwf.2

/-! ## Provenance of a pending silence-confirmation timer -/

theorem timer_provenance (es : List MicEvent) :
    ∀ (s : MicState) (d : ℕ), WF s es → (run s es).silenceTimeout = some d →
      (s.silenceTimeout = some d ∧ QuietTicks s es) ∨
      (∃ pre t0 data mid,
        es = pre ++ MicEvent.tick t0 data :: mid ∧
        (run s pre).isSpeaking = true ∧
        (run s pre).silenceTimeout = none ∧
        smoothedAt (run s pre) data ≤ SILENCE_THRESHOLD ∧
        d = t0 + SILENCE_DELAY ∧
        QuietTicks (step (run s pre) (.tick t0 data)) mid) := by
  induction es with
  | nil =>
    intro s d _ hd
    exact .inl ⟨hd, trivial⟩
  | cons e es ih =>
    intro s d hwf hd
    obtain ⟨hv, hwf2⟩ := hwf
    rw [run_cons] at hd
    rcases ih (step s e) d hwf2 hd with ⟨hto, hq⟩ |
      ⟨pre, t0, data, mid, heq, hspk, hnone, hquiet, hdd, hq⟩
    · cases e with
      | tick t data =>
        obtain ⟨-, ha, -, -⟩ := hv
        rw [tick_silenceTimeout s t data ha] at hto
        by_cases hth : SILENCE_THRESHOLD < smoothedAt s data
        · rw [if_pos hth] at hto
          exact absurd hto (by simp)
        · rw [if_neg hth] at hto
          by_cases hset : s.isSpeaking = true ∧ s.silenceTimeout = none
          · rw [if_pos hset] at hto
            refine .inr ⟨[], t, data, es, rfl, hset.1, hset.2, le_of_not_lt hth,
              (Option.some.inj hto).symm, hq⟩
          · rw [if_neg hset] at hto
            refine .inl ⟨hto, ⟨?_, hq⟩⟩
            intro t2 data2 he
            cases he
            exact le_of_not_lt hth
      | fire t =>
        rw [step_fire] at hto
        exact absurd hto (by simp [fireSilenceTimeout])
      | start g =>
        rw [step_start, start_silenceTimeout] at hto
        refine .inl ⟨hto, ⟨?_, hq⟩⟩
        intro t2 data2 he
        exact absurd he (by simp)
      | stop =>
        rw [step_stop] at hto
        exact absurd hto (by simp [stopListening])
    · refine .inr ⟨e :: pre, t0, data, mid, by rw [List.cons_append, heq], ?_, ?_, ?_, hdd, ?_⟩
      · rw [run_cons]; exact hspk
      · rw [run_cons]; exact hnone
      · rw [run_cons]; exact hquiet
      · rw [run_cons]; exact hq

/-! ## Volume-history lemmas -/

theorem foldl_pushHistory (vs : List ℚ) :
    List.foldl pushHistory [] vs = vs.drop (vs.length - VOLUME_HISTORY_SIZE) := by
  induction vs using List.reverseRecOn with
  | nil => rfl
  | append_singleton vs v ih =>
    rw [List.foldl_append, List.foldl_cons, List.foldl_nil, ih]
    rcases Nat.lt_or_ge vs.length 10 with hlt | hge
    · have h1 : vs.length - VOLUME_HISTORY_SIZE = 0 := by
        simp [VOLUME_HISTORY_SIZE]; omega
      have h2 : (vs ++ [v]).length - VOLUME_HISTORY_SIZE = 0 := by
        simp [VOLUME_HISTORY_SIZE]; omega
      rw [h1, h2, List.drop_zero, List.drop_zero]
      unfold pushHistory
      simp [VOLUME_HISTORY_SIZE]
      omega
    · have hlen : (vs.drop (vs.length - VOLUME_HISTORY_SIZE)).length = 10 := by
        rw [List.length_drop]; simp [VOLUME_HISTORY_SIZE]; omega
      have hne : vs.drop (vs.length - VOLUME_HISTORY_SIZE) ≠ [] := by
        intro h
        rw [h] at hlen
        simp at hlen
      unfold pushHistory
      rw [if_pos (by simp [VOLUME_HISTORY_SIZE]; omega)]
      rw [List.tail_append]
      rw [if_neg (by simpa [List.isEmpty_iff] using hne)]
      rw [List.tail_drop]
      have h3 : (vs ++ [v]).length - VOLUME_HISTORY_SIZE =
          vs.length - VOLUME_HISTORY_SIZE + 1 := by
        simp [VOLUME_HISTORY_SIZE]; omega
      rw [h3, List.drop_append_of_le_length (by simp [VOLUME_HISTORY_SIZE]; omega)]

theorem normalizedLevel_unit (data : List ℕ) (hd : data ≠ [])
    (hb : ∀ b ∈ data, b ≤ 255) :
    0 ≤ normalizedLevel data ∧ normalizedLevel data ≤ 1 := by
  have hlen : 0 < (data.length : ℚ) := by
    exact_mod_cast List.length_pos.mpr hd
  constructor
  · unfold normalizedLevel
    positivity
  · unfold normalizedLevel
    rw [div_le_one (by norm_num : (0:ℚ) < 255), div_le_iff₀ hlen, mul_comm]
    have hs := List.sum_le_card_nsmul data 255 hb
    rw [smul_eq_mul] at hs
    exact_mod_cast hs

/-! ## Browser-resource ledger -/

theorem optList_length (o : Option ℕ) : o.toList.length ≤ 1 := by
  cases o <;> simp

theorem ledger_step (s : MicState) (e : MicEvent) (hd : startsClosed s e)
    (hI : s.openStreams = s.mediaStream.toList ∧
          s.openContexts = s.audioContext.toList) :
    (step s e).openStreams = (step s e).mediaStream.toList ∧
    (step s e).openContexts = (step s e).audioContext.toList := by
  obtain ⟨h1, h2⟩ := hI
  cases e with
  | tick t data =>
    obtain ⟨-, hm, hc, hs, hx⟩ := tick_handles s t data
    rw [hm, hc, hs, hx]
    exact ⟨h1, h2⟩
  | fire t =>
    rw [step_fire]
    exact ⟨h1, h2⟩
  | start g =>
    rw [step_start]
    cases g with
    | false => exact ⟨h1, h2⟩
    | true =>
      have hmc : s.mediaStream = none ∧ s.audioContext = none := hd
      rw [hmc.1] at h1
      rw [hmc.2] at h2
      simp only [Option.toList_none] at h1 h2
      unfold startListening
      simp [h1, h2]
  | stop =>
    rw [step_stop]
    unfold stopListening
    dsimp only
    rcases hm : s.mediaStream with _ | i <;> rcases hc : s.audioContext with _ | j <;>
      simp_all [eraseOpt]

theorem ledger_run (es : List MicEvent) (s : MicState)
    (hI : s.openStreams = s.mediaStream.toList ∧
          s.openContexts = s.audioContext.toList)
    (hdisc : Disciplined s es) :
    (run s es).openStreams = (run s es).mediaStream.toList ∧
    (run s es).openContexts = (run s es).audioContext.toList := by
  induction es generalizing s with
  | nil => exact hI
  | cons e es ih =>
    rw [run_cons]
    exact ih (step s e) (ledger_step s e hdisc.1 hI) hdisc.2

/-! ## Claim theorems -/

/-- C1: in any well-formed run of the analysis loop started with no pending
confirmation timer, the speaking flag goes true→false only through the
firing of a confirmation timer that was started `SILENCE_DELAY = 800` ms or
more before the commit by a sub-threshold tick taken while speaking, with
every analysis tick since then also sub-threshold (an above-threshold tick
would have cancelled it), and with the elapsed time since the speaking
onset at least `MIN_SPEAKING_DURATION = 200` ms; and the false→true
transition happens immediately on any tick whose smoothed volume exceeds
the threshold, recording its timestamp as the onset. -/
theorem speaking_hysteresis (s0 : MicState) (es : List MicEvent) (t : ℕ)
    (h0 : s0.silenceTimeout = none)
    (hwf : WF s0 (es ++ [MicEvent.fire t]))
    (hon : (run s0 es).isSpeaking = true)
    (hoff : (run s0 (es ++ [MicEvent.fire t])).isSpeaking = false) :
    (∃ pre t0 data mid,
        es = pre ++ MicEvent.tick t0 data :: mid ∧
        (run s0 pre).isSpeaking = true ∧
        smoothedAt (run s0 pre) data ≤ SILENCE_THRESHOLD ∧
        QuietTicks (step (run s0 pre) (.tick t0 data)) mid ∧
        t0 + SILENCE_DELAY ≤ t ∧
        MIN_SPEAKING_DURATION ≤ t - (run s0 es).lastSpeakingTime) ∧
    (∀ (s : MicState) (u : ℕ) (data : List ℕ),
        s.isSpeaking = false → s.analyser ≠ none →
        SILENCE_THRESHOLD < smoothedAt s data →
        (step s (.tick u data)).isSpeaking = true ∧
        (step s (.tick u data)).lastSpeakingTime = u) ∧
    (∀ (s : MicState) (u : ℕ) (data : List ℕ),
        s.analyser ≠ none → s.isSpeaking = true →
        (step s (.tick u data)).isSpeaking = true) := by
  refine ⟨?_, ?_, ?_⟩
  · rw [WF_append] at hwf
    obtain ⟨hwf1, hwfr⟩ := hwf
    have hv : validEvent (run s0 es) (.fire t) := hwfr.1
    have hv2 : (run s0 es).time ≤ t ∧ deadlineLe (run s0 es).silenceTimeout t := hv
    obtain ⟨hts, hdl⟩ := hv2
    rcases hsto : (run s0 es).silenceTimeout with _ | d
    · rw [hsto] at hdl
      exact False.elim hdl
    · rw [hsto] at hdl
      change d ≤ t at hdl
      rcases timer_provenance es s0 d hwf1 hsto with ⟨h0bad, -⟩ |
        ⟨pre, t0, data, mid, heq, hspk, hnone, hquiet, hdd, hq⟩
      · rw [h0] at h0bad
        exact absurd h0bad (by simp)
      · rw [run_append, run_cons, run_nil, step_fire] at hoff
        unfold fireSilenceTimeout at hoff
        dsimp only at hoff
        by_cases hg : MIN_SPEAKING_DURATION ≤ t - (run s0 es).lastSpeakingTime
        · exact ⟨pre, t0, data, mid, heq, hspk, hquiet, hq, by omega, hg⟩
        · rw [if_neg hg] at hoff
          rw [hon] at hoff
          exact absurd hoff (by simp)
  · intro s u data hns ha hth
    rw [tick_isSpeaking s u data ha, tick_lastSpeakingTime s u data ha]
    rw [if_pos hth, if_pos ⟨hth, hns⟩]
    exact ⟨rfl, rfl⟩
  · intro s u data ha hs
    rw [tick_isSpeaking s u data ha]
    split_ifs
    · rfl
    · exact hs

/-- C1 witness: a concrete run — grant, a loud tick at 0 ms (onset), a
quiet tick at 100 ms (timer armed for 900 ms), timer firing at 900 ms —
satisfies every hypothesis of `speaking_hysteresis`, and the decomposition
it asserts holds. -/
theorem speaking_hysteresis_witness :
    initState.silenceTimeout = none ∧
    WF initState ([MicEvent.start true, MicEvent.tick 0 [2], MicEvent.tick 100 [0]] ++
      [MicEvent.fire 900]) ∧
    (run initState [MicEvent.start true, MicEvent.tick 0 [2], MicEvent.tick 100 [0]]).isSpeaking
      = true ∧
    (run initState ([MicEvent.start true, MicEvent.tick 0 [2], MicEvent.tick 100 [0]] ++
      [MicEvent.fire 900])).isSpeaking = false ∧
    (∃ pre t0 data mid,
        [MicEvent.start true, MicEvent.tick 0 [2], MicEvent.tick 100 [0]] =
          pre ++ MicEvent.tick t0 data :: mid ∧
        (run initState pre).isSpeaking = true ∧
        smoothedAt (run initState pre) data ≤ SILENCE_THRESHOLD ∧
        QuietTicks (step (run initState pre) (.tick t0 data)) mid ∧
        t0 + SILENCE_DELAY ≤ 900 ∧
        MIN_SPEAKING_DURATION ≤ 900 -
          (run initState [MicEvent.start true, MicEvent.tick 0 [2],
            MicEvent.tick 100 [0]]).lastSpeakingTime) := by
  have h0 : initState.silenceTimeout = none := rfl
  have hwf : WF initState ([MicEvent.start true, MicEvent.tick 0 [2],
      MicEvent.tick 100 [0]] ++ [MicEvent.fire 900]) := by
    with_unfolding_all decide
  have hon : (run initState [MicEvent.start true, MicEvent.tick 0 [2],
      MicEvent.tick 100 [0]]).isSpeaking = true := by
    with_unfolding_all decide
  have hoff : (run initState ([MicEvent.start true, MicEvent.tick 0 [2],
      MicEvent.tick 100 [0]] ++ [MicEvent.fire 900])).isSpeaking = false := by
    with_unfolding_all decide
  exact ⟨h0, hwf, hon, hoff,
    (speaking_hysteresis initState _ 900 h0 hwf hon hoff).1⟩

/-- C2: the volume history is a FIFO of capacity 10 — after any sequence of
pushes it holds exactly the most recent `min(n, 10)` samples in push order
(the fold equals the suffix of the pushed sequence), and each analysis tick
updates the history by exactly one such push. -/
theorem volumeHistory_capacity (vs : List ℚ) (s : MicState) (t : ℕ)
    (data : List ℕ) (h : s.analyser ≠ none) :
    (List.foldl pushHistory [] vs).length = min vs.length VOLUME_HISTORY_SIZE ∧
    List.foldl pushHistory [] vs = vs.drop (vs.length - VOLUME_HISTORY_SIZE) ∧
    (step s (.tick t data)).volumeHistory =
      pushHistory s.volumeHistory (normalizedLevel data) := by
  refine ⟨?_, foldl_pushHistory vs, tick_volumeHistory s t data h⟩
  rw [foldl_pushHistory, List.length_drop]
  simp [VOLUME_HISTORY_SIZE]
  omega

/-- C2 witness: concrete push sequence and a concrete tick. -/
theorem volumeHistory_capacity_witness :
    (run initState [MicEvent.start true]).analyser ≠ none ∧
    (List.foldl pushHistory [] [1, 2, 3]).length =
      min ([1, 2, 3] : List ℚ).length VOLUME_HISTORY_SIZE ∧
    (step (run initState [MicEvent.start true]) (.tick 5 [3, 7])).volumeHistory =
      pushHistory (run initState [MicEvent.start true]).volumeHistory
        (normalizedLevel [3, 7]) := by
  have h : (run initState [MicEvent.start true]).analyser ≠ none := by
    with_unfolding_all decide
  have hc := volumeHistory_capacity [1, 2, 3] (run initState [MicEvent.start true]) 5 [3, 7] h
  exact ⟨h, hc.1, hc.2.2⟩

/-- C3 counterexample: after a loud tick (all bytes 255) and a silent tick
(byte 0), the exposed `audioLevel` is the raw last sample `0`, while the
arithmetic mean of the volume history is `1/2` — the exposed level is not
the smoothed mean. -/
theorem audioLevel_not_smoothed_cex :
    WF initState [MicEvent.start true, MicEvent.tick 0 [255], MicEvent.tick 1 [0]] ∧
    (run initState [MicEvent.start true, MicEvent.tick 0 [255],
      MicEvent.tick 1 [0]]).audioLevel ≠
      mean (run initState [MicEvent.start true, MicEvent.tick 0 [255],
        MicEvent.tick 1 [0]]).volumeHistory := by
  constructor <;> with_unfolding_all decide

/-- C3 amended: each analysis tick exposes as `audioLevel` the raw
per-tick normalized sample (mean byte magnitude divided by 255, a value in
[0, 1]); the arithmetic mean of the history is computed but used only for
the speaking classification. -/
theorem audioLevel_is_raw_sample (s : MicState) (t : ℕ) (data : List ℕ)
    (h : s.analyser ≠ none) (hd : data ≠ []) (hb : ∀ b ∈ data, b ≤ 255) :
    (step s (.tick t data)).audioLevel = normalizedLevel data ∧
    0 ≤ normalizedLevel data ∧ normalizedLevel data ≤ 1 := by
  obtain ⟨h0, h1⟩ := normalizedLevel_unit data hd hb
  exact ⟨tick_audioLevel s t data h, h0, h1⟩

/-- C3 amended witness. -/
theorem audioLevel_is_raw_sample_witness :
    (run initState [MicEvent.start true]).analyser ≠ none ∧
    (step (run initState [MicEvent.start true]) (.tick 3 [10, 20])).audioLevel =
      normalizedLevel [10, 20] ∧
    0 ≤ normalizedLevel [10, 20] ∧ normalizedLevel [10, 20] ≤ 1 := by
  have h : (run initState [MicEvent.start true]).analyser ≠ none := by
    with_unfolding_all decide
  have hd : ([10, 20] : List ℕ) ≠ [] := by decide
  have hb : ∀ b ∈ ([10, 20] : List ℕ), b ≤ 255 := by decide
  exact ⟨h, audioLevel_is_raw_sample (run initState [MicEvent.start true]) 3 [10, 20] h hd hb⟩

/-- C4: `stopListening` is idempotent — a second call is a no-op — and
the stopped state has level 0, speaking false, listening false, an empty
volume history, a null analyser and no pending silence-confirmation
timer. -/
theorem stopListening_idempotent_resets (s : MicState) :
    stopListening (stopListening s) = stopListening s ∧
    (stopListening s).audioLevel = 0 ∧
    (stopListening s).isSpeaking = false ∧
    (stopListening s).isListening = false ∧
    (stopListening s).volumeHistory = [] ∧
    (stopListening s).analyser = none ∧
    (stopListening s).silenceTimeout = none :=
  ⟨rfl, rfl, rfl, rfl, rfl, rfl, rfl⟩

/-- C5: when microphone access is denied, `startListening` records the
denied permission and a user-facing error message, and creates no session:
from an idle state, listening stays false and the stream, audio context
and analyser handles stay null. -/
theorem startListening_denied_no_session (s : MicState)
    (hL : s.isListening = false) (hm : s.mediaStream = none)
    (hc : s.audioContext = none) (ha : s.analyser = none) :
    (startListening s false).hasPermission = some false ∧
    (startListening s false).error = some micDeniedMsg ∧
    (startListening s false).isListening = false ∧
    (startListening s false).mediaStream = none ∧
    (startListening s false).audioContext = none ∧
    (startListening s false).analyser = none := by
  unfold startListening
  simp [hL, hm, hc, ha]

/-- C5 witness: denial from the initial state. -/
theorem startListening_denied_no_session_witness :
    (startListening initState false).hasPermission = some false ∧
    (startListening initState false).error = some micDeniedMsg ∧
    (startListening initState false).isListening = false ∧
    (startListening initState false).mediaStream = none ∧
    (startListening initState false).audioContext = none ∧
    (startListening initState false).analyser = none :=
  startListening_denied_no_session initState rfl rfl rfl rfl

/-- C6 counterexample: two consecutive granted `startListening` calls
form a well-formed call sequence after which the first session's stream is
still live (its handle 0 is still in the open-stream ledger, as is its
audio context) and two streams are live at once. -/
theorem double_start_leaks_prior_session :
    WF initState [MicEvent.start true, MicEvent.start true] ∧
    (run initState [MicEvent.start true]).mediaStream = some 0 ∧
    0 ∈ (run initState [MicEvent.start true, MicEvent.start true]).openStreams ∧
    0 ∈ (run initState [MicEvent.start true, MicEvent.start true]).openContexts ∧
    1 < (run initState [MicEvent.start true, MicEvent.start true]).openStreams.length := by
  refine ⟨?_, ?_, ?_, ?_, ?_⟩ <;> with_unfolding_all decide

/-- C6 amended: under the discipline the recorder shell maintains — every
`startListening` call happens with no session open (initially, or after
`stopListening`) — at most one stream and one audio context are ever live,
and the live ones are exactly the currently held handles. -/
theorem single_session_under_discipline (es : List MicEvent)
    (hdisc : Disciplined initState es) :
    (run initState es).openStreams.length ≤ 1 ∧
    (run initState es).openContexts.length ≤ 1 ∧
    (run initState es).openStreams = (run initState es).mediaStream.toList ∧
    (run initState es).openContexts = (run initState es).audioContext.toList := by
  obtain ⟨h1, h2⟩ := ledger_run es initState ⟨rfl, rfl⟩ hdisc
  refine ⟨?_, ?_, h1, h2⟩
  · rw [h1]; exact optList_length _
  · rw [h2]; exact optList_length _

/-- C6 amended witness: start, stop, start again. -/
theorem single_session_under_discipline_witness :
    Disciplined initState [MicEvent.start true, MicEvent.stop, MicEvent.start true] ∧
    (run initState [MicEvent.start true, MicEvent.stop,
      MicEvent.start true]).openStreams.length ≤ 1 := by
  have hd : Disciplined initState
      [MicEvent.start true, MicEvent.stop, MicEvent.start true] := by
    with_unfolding_all decide
  exact ⟨hd, (single_session_under_discipline _ hd).1⟩

/-- C7: an interval firing adds exactly one second to the timer, and fires
exactly when `isRecording ∧ isListening ∧ ¬isPaused`; the pause transition
of the toggle keeps the timer value (and closes the gate); a fresh start
from idle resets the timer to 0; the stop control resets it to 0 and
closes the gate. -/
theorem recordingTimer_spec (a : AppState) (g : Bool) :
    ((timerTick a).recordingTime = a.recordingTime + 1 ↔ timerGate a = true) ∧
    (timerGate a = false → (timerTick a).recordingTime = a.recordingTime) ∧
    (a.isRecording = true → a.isPaused = false →
      (handleRecordingToggle a g).recordingTime = a.recordingTime ∧
      (handleRecordingToggle a g).isPaused = true ∧
      timerGate (handleRecordingToggle a g) = false) ∧
    (a.isRecording = false → a.isPaused = false →
      (handleRecordingToggle a g).recordingTime = 0) ∧
    (handleStopRecording a).recordingTime = 0 ∧
    timerGate (handleStopRecording a) = false := by
  refine ⟨?_, ?_, ?_, ?_, rfl, ?_⟩
  · unfold timerTick
    split_ifs with hg
    · simp [hg]
    · simp [hg]
  · intro hg
    unfold timerTick
    rw [if_neg (by simp [hg])]
  · intro hr hp
    unfold handleRecordingToggle
    rw [if_neg (by simp [hr]), if_pos (by simp [hr, hp])]
    refine ⟨rfl, rfl, ?_⟩
    unfold timerGate stopListening
    simp
  · intro hr hp
    unfold handleRecordingToggle
    rw [if_pos (by simp [hr, hp])]
  · unfold timerGate handleStopRecording stopListening
    simp

/-- C8: the recomputed canvas width is `min(max(0.95·w, 320), 800)` and so
always lies in [320, 800]; the height is `min(width · (height/width
ratio), 200)` and so never exceeds 200; and a container of width 1000 with
the 800×160 props yields exactly 800×160. -/
theorem updateCanvasSize_spec (w pw ph : ℚ) (hw : 0 ≤ w) :
    (updateCanvasSize w pw ph).1 = min (max (w * (95 / 100)) 320) 800 ∧
    320 ≤ (updateCanvasSize w pw ph).1 ∧
    (updateCanvasSize w pw ph).1 ≤ 800 ∧
    (updateCanvasSize w pw ph).2 = min ((updateCanvasSize w pw ph).1 * (ph / pw)) 200 ∧
    (updateCanvasSize w pw ph).2 ≤ 200 ∧
    updateCanvasSize 1000 800 160 = (800, 160) := by
  refine ⟨rfl, ?_, ?_, rfl, ?_, ?_⟩
  · exact le_min (le_max_right _ _) (by norm_num)
  · exact min_le_right _ _
  · exact min_le_right _ _
  · unfold updateCanvasSize
    norm_num

/-- C8 witness: container width 1000. -/
theorem updateCanvasSize_spec_witness :
    (0 : ℚ) ≤ 1000 ∧ updateCanvasSize 1000 800 160 = (800, 160) :=
  ⟨by norm_num, (updateCanvasSize_spec 1000 800 160 (by norm_num)).2.2.2.2.2⟩

/-- C9 counterexample: in the sine-overlay renderer variant, a frame with
flat data (RMS 0) and the external speaking flag set takes the silent
branch — the branch is not the disjunction, which is true there. -/
theorem overlay_branch_ignores_external_flag :
    overlayBranch [128] true = false ∧ speakingDecision [128] true = true := by
  constructor <;> with_unfolding_all decide

/-- C9 amended: in the first renderer variant the active/silent branch is
exactly the disjunction of the external speaking flag and the local
RMS-above-threshold check; in the second (sine-overlay) variant the active
branch is taken exactly when the local RMS check passes, so the external
flag alone never activates it. -/
theorem renderer_branch_decisions (data : List ℕ) (ext : Bool) :
    speakingDecision data ext = (ext || rmsAboveThreshold data) ∧
    overlayBranch data ext = rmsAboveThreshold data := by
  unfold overlayBranch speakingDecision
  cases ext <;> cases rmsAboveThreshold data <;> simp

/-- C10: whenever the silence-confirmation timer fires in a reachable
state, at least `SILENCE_DELAY = 800` ms ≥ 200 ms have elapsed since the
speaking onset, so the `MIN_SPEAKING_DURATION` guard always passes and
the firing always commits speaking = false. -/
theorem silence_guard_always_passes (es : List MicEvent) (t d : ℕ)
    (hwf : WF initState es)
    (hd : (run initState es).silenceTimeout = some d)
    (hv : validEvent (run initState es) (.fire t)) :
    SILENCE_DELAY ≤ t - (run initState es).lastSpeakingTime ∧
    MIN_SPEAKING_DURATION ≤ t - (run initState es).lastSpeakingTime ∧
    (step (run initState es) (.fire t)).isSpeaking = false := by
  obtain ⟨hlst, hto⟩ := inv_run es initState inv_init hwf
  obtain ⟨hspk, hdl, -⟩ := hto d hd
  have hv2 : (run initState es).time ≤ t ∧
      deadlineLe (run initState es).silenceTimeout t := hv
  obtain ⟨hts, hdle⟩ := hv2
  rw [hd] at hdle
  change d ≤ t at hdle
  have h800 : SILENCE_DELAY ≤ t - (run initState es).lastSpeakingTime := by omega
  have h200 : MIN_SPEAKING_DURATION ≤ t - (run initState es).lastSpeakingTime := by
    unfold MIN_SPEAKING_DURATION
    unfold SILENCE_DELAY at h800
    omega
  refine ⟨h800, h200, ?_⟩
  rw [step_fire]
  unfold fireSilenceTimeout
  dsimp only
  rw [if_pos h200]

/-- C10 witness: the concrete armed-timer run, fired at its deadline. -/
theorem silence_guard_always_passes_witness :
    WF initState [MicEvent.start true, MicEvent.tick 0 [2], MicEvent.tick 100 [0]] ∧
    (run initState [MicEvent.start true, MicEvent.tick 0 [2],
      MicEvent.tick 100 [0]]).silenceTimeout = some 900 ∧
    validEvent (run initState [MicEvent.start true, MicEvent.tick 0 [2],
      MicEvent.tick 100 [0]]) (.fire 900) ∧
    (step (run initState [MicEvent.start true, MicEvent.tick 0 [2],
      MicEvent.tick 100 [0]]) (.fire 900)).isSpeaking = false := by
  have h1 : WF initState [MicEvent.start true, MicEvent.tick 0 [2],
      MicEvent.tick 100 [0]] := by
    with_unfolding_all decide
  have h2 : (run initState [MicEvent.start true, MicEvent.tick 0 [2],
      MicEvent.tick 100 [0]]).silenceTimeout = some 900 := by
    with_unfolding_all decide
  have h3 : validEvent (run initState [MicEvent.start true, MicEvent.tick 0 [2],
      MicEvent.tick 100 [0]]) (.fire 900) := by
    with_unfolding_all decide
  exact ⟨h1, h2, h3, (silence_guard_always_passes _ 900 900 h1 h2 h3).2.2⟩

end Clerkk
